import Mathlib

/-!
Verification of the configuration reconciliation and transactional-apply
engine of the `cliconf` plugins for the `vyos` and `ios` network devices
(`lib/ansible/plugins/cliconf/vyos.py` and
`lib/ansible/plugins/cliconf/ios.py`).

The Python sources are shallowly embedded: every method relevant to the
reconciliation engine is translated into an executable Lean function over
lists of characters and strings.  The external command channel is modelled
as a record holding a response function together with a flag describing
whether the `commit` command fails.  Helper functions mirroring Python
string primitives (`startswith`, `replace`, `splitlines`, `strip`) are
defined from first principles on character lists so that all reasoning and
all concrete evaluations stay inside the kernel.
-/

/-! ## Python string primitives -/

/-- Python `s.startswith(pre)`: `pre` is a prefix of `s`. -/
def pyStartsWith (s pre : String) : Bool :=
  pre.toList.isPrefixOf s.toList

/-- The single-quote character, built from its code point so that the
development never spells the character itself. -/
def singleQuote : Char := Char.ofNat 39

/-- Python `str.replace(old, new)` restricted to removing every
single-quote character; used by `get_diff` on the vyos dialect
(`str(c).replace(quote, empty)`). -/
def stripQuotes (s : String) : String :=
  (s.toList.filter (fun c => c ≠ singleQuote)).asString

/-- One step of leftmost non-overlapping replacement on character lists;
`fuel` bounds recursion depth (always called with enough fuel). -/
def replaceChars (pat rep : List Char) : Nat → List Char → List Char
  | 0, s => s
  | _ + 1, [] => []
  | fuel + 1, c :: rest =>
    if pat.isPrefixOf (c :: rest) then
      rep ++ replaceChars pat rep fuel ((c :: rest).drop pat.length)
    else
      c :: replaceChars pat rep fuel rest

/-- Python `s.replace(pat, rep)` (and `re.sub` with a literal pattern):
replace every leftmost non-overlapping occurrence.  Only used with
non-empty patterns. -/
def pyReplace (s pat rep : String) : String :=
  (replaceChars pat.toList rep.toList (s.toList.length + 1) s.toList).asString

/-- Python whitespace as recognised by `str.strip`. -/
def isPySpace (c : Char) : Bool :=
  c = ' ' || c = '\t' || c = '\n' || c = '\x0d' || c = '\x0b' || c = '\x0c'

/-- Python `s.strip()`. -/
def pyStrip (s : String) : String :=
  (((s.toList.dropWhile isPySpace).reverse.dropWhile isPySpace).reverse).asString

/-- Split a character list at every newline; always returns at least one
(possibly empty) piece, matching Python `s.split(nl)`. -/
def splitCharsOnNL : List Char → List (List Char)
  | [] => [[]]
  | c :: rest =>
    match splitCharsOnNL rest with
    | [] => [[]]
    | piece :: pieces =>
      if c = '\n' then [] :: piece :: pieces else (c :: piece) :: pieces

/-- Python `s.split(nl)` for the newline separator. -/
def pySplitNL (s : String) : List String :=
  (splitCharsOnNL s.toList).map List.asString

/-- Python `s.splitlines()` (for newline-terminated text): like
`split(nl)` but an empty string yields no lines and a trailing newline
does not produce a trailing empty line. -/
def pySplitlines (s : String) : List String :=
  if s = "" then []
  else
    let parts := pySplitNL s
    if s.toList.getLast? = some '\n' then parts.dropLast else parts

/-- Truthiness of an optional string in Python (`None` and the empty
string are falsy). -/
def optStrTruthy : Option String → Bool
  | none => false
  | some s => s ≠ ""

/-- Truthiness of an optional list in Python (`None` and the empty list
are falsy). -/
def optListTruthy : Option (List String) → Bool
  | none => false
  | some l => l ≠ []

/-- Python `repr` of a string with single quotes. -/
def pyStrRepr (s : String) : String :=
  singleQuote.toString ++ s ++ singleQuote.toString

/-- Python `repr` of a list of strings, as interpolated into error
messages by `%s` formatting. -/
def pyReprList (l : List String) : String :=
  "[" ++ String.intercalate ", " (l.map pyStrRepr) ++ "]"

/-! ## Device operations and option values

`get_device_operations` and `get_option_values` return constant
dictionaries; they are embedded as a structure and constant lists. -/

structure DeviceOperations where
  supports_diff_replace : Bool
  supports_commit : Bool
  supports_rollback : Bool
  supports_defaults : Bool
  supports_onbox_diff : Bool
  supports_commit_comment : Bool
  supports_multiline_delimiter : Bool
  support_diff_match : Bool
  support_diff_ignore_lines : Bool
  supports_generate_diff : Bool
  supports_replace : Bool
deriving DecidableEq, Repr

/-- `Cliconf.get_device_operations` of the vyos plugin. -/
def vyosDeviceOperations : DeviceOperations :=
  { supports_diff_replace := false
    supports_commit := true
    supports_rollback := true
    supports_defaults := false
    supports_onbox_diff := false
    supports_commit_comment := true
    supports_multiline_delimiter := false
    support_diff_match := true
    support_diff_ignore_lines := false
    supports_generate_diff := true
    supports_replace := false }

/-- `Cliconf.get_device_operations` of the ios plugin. -/
def iosDeviceOperations : DeviceOperations :=
  { supports_diff_replace := true
    supports_commit := false
    supports_rollback := false
    supports_defaults := true
    supports_onbox_diff := false
    supports_commit_comment := false
    supports_multiline_delimiter := false
    support_diff_match := true
    support_diff_ignore_lines := true
    supports_generate_diff := true
    supports_replace := false }

/-- `get_option_values()[diff_match]` of the vyos plugin. -/
def vyosDiffMatchValues : List String := ["line", "none"]

/-- `get_option_values()[diff_match]` of the ios plugin. -/
def iosDiffMatchValues : List String := ["line", "strict", "exact", "none"]

/-- `get_option_values()[diff_replace]` of the ios plugin. -/
def iosDiffReplaceValues : List String := ["line", "block"]

/-! ## vyos `get_diff`: candidate normalization

`Cliconf.get_diff` (vyos), lines 145-161: a candidate that is not already
in set/delete form is parsed into configuration lines and filtered so
that a less specific line is dropped once a more specific line arrives.
The loop below mirrors the Python loop: for each new `item`, scan the
accepted `commands` in order, delete the first entry that `item`
starts with, stop scanning, then append `item`. -/

/-- Delete the first accepted entry that is a text-prefix of `item`
(the `for index, entry in enumerate(commands): ... del ... break` loop). -/
def removeFirstPrefixOf (item : String) : List String → List String
  | [] => []
  | entry :: rest =>
    if pyStartsWith item entry then rest
    else entry :: removeFirstPrefixOf item rest

/-- The filtering loop of vyos `get_diff` over the parsed candidate
lines, carrying the accepted `commands` accumulator. -/
def vyosFilterGo (commands : List String) : List String → List String
  | [] => commands
  | item :: rest => vyosFilterGo (removeFirstPrefixOf item commands ++ [item]) rest

/-- `get_diff` candidate filtering: "this filters out less specific
lines". -/
def vyosFilterCommands (config : List String) : List String :=
  vyosFilterGo [] config

/-! ## Line tree parser (spec-modelled)

`NetworkConfig` lives in `module_utils/network/common/config.py`, which is
not part of the excerpted sources; only the two plugins under review use
it. -/

/-- Modelled from the spec: Line Tree Parser (section 4.2) of
`NetworkConfig` (module_utils, not under src/).  Splits text into lines,
skips blank and comment-prefixed lines, assigns each line a depth from
its leading spaces, links it to the nearest preceding lines of lesser
depth, and reports each item as the space-joined path of parent texts
followed by its own text (the `.line` attribute consumed by vyos
`get_diff`). -/
def networkConfigItemsGo (stack : List (Nat × String)) : List String → List String
  | [] => []
  | raw :: rest =>
    let text := pyStrip raw
    if text = "" || pyStartsWith text "!" || pyStartsWith text "#" then
      networkConfigItemsGo stack rest
    else
      let depth := (raw.toList.takeWhile (fun c => c = ' ')).length
      let ancestors := stack.filter (fun p => p.1 < depth)
      let line := String.intercalate " " (ancestors.map Prod.snd ++ [text])
      line :: networkConfigItemsGo (ancestors ++ [(depth, text)]) rest

/-- Modelled from the spec: Line Tree Parser (section 4.2); the ordered
item lines of `NetworkConfig(contents=...)`. -/
def networkConfigItems (contents : String) : List String :=
  networkConfigItemsGo [] (pySplitlines contents)

/-! ## vyos `get_diff` -/

/-- The candidate command list prepared by vyos `get_diff`: a candidate
already in set/delete form is split into lines; otherwise the parsed
lines are filtered for specificity and each surviving line becomes
`set <line>` with every brace remnant removed. -/
def vyosCandidateCommands (candidate : String) : List String :=
  if pyStartsWith candidate "set" || pyStartsWith candidate "delete" then
    pySplitNL (pyStrip candidate)
  else
    (vyosFilterCommands (networkConfigItems candidate)).map
      (fun cmd => "set " ++ pyReplace cmd " \x7b" "")

/-- The reconciliation loop of vyos `get_diff` (lines 169-191), carrying
the `updates` output and the `visited` set.  `rc` is the quote-stripped
running command list.  A line whose quote-stripped text starts with
neither `set` nor `delete` raises; a `set` line is emitted when absent
from `rc`; a `delete` line is emitted unconditionally when `rc` is empty
and otherwise at most once, when rewriting `delete` to `set` yields a
prefix of some running command and the original line was not visited. -/
def vyosUpdatesAux (rc : List String) :
    List String → List String → List String → Except String (List String)
  | [], updates, _ => .ok updates
  | line :: rest, updates, visited =>
    let item := stripQuotes line
    if pyStartsWith item "set" = false ∧ pyStartsWith item "delete" = false then
      .error "line must start with either `set` or `delete`"
    else if pyStartsWith item "set" = true ∧ item ∉ rc then
      vyosUpdatesAux rc rest (updates ++ [line]) visited
    else if pyStartsWith item "delete" = true then
      if rc = [] then
        vyosUpdatesAux rc rest (updates ++ [line]) visited
      else
        let item2 := pyReplace item "delete" "set"
        if (∃ entry ∈ rc, pyStartsWith entry item2 = true) ∧ line ∉ visited then
          vyosUpdatesAux rc rest (updates ++ [line]) (line :: visited)
        else
          vyosUpdatesAux rc rest updates visited
    else
      vyosUpdatesAux rc rest updates visited

/-- The `updates` list computed by vyos `get_diff` in flat (`line`)
mode from the candidate command list and the raw running lines
(`running.splitlines()` pieces, quote-stripped before comparison). -/
def vyosUpdates (candidateCommands runningLines : List String) :
    Except String (List String) :=
  vyosUpdatesAux (runningLines.map stripQuotes) candidateCommands [] []

/-- `Cliconf.get_diff` of the vyos plugin (lines 125-192); the result is
the `config_diff` command list. -/
def vyosGetDiff (candidate : Option String) (running : String) (matchP : String)
    (diff_ignore_lines path : Option (List String)) (replaceP : Option String) :
    Except String (List String) :=
  if candidate = none ∧ ¬ vyosDeviceOperations.supports_onbox_diff then
    .error "candidate configuration is required to generate diff"
  else if ¬ vyosDiffMatchValues.contains matchP then
    .error (pyStrRepr "match" ++ " value " ++ matchP ++ " in invalid, valid values are "
      ++ pyReprList vyosDiffMatchValues)
  else if optStrTruthy replaceP then
    .error (pyStrRepr "replace" ++ " in diff is not supported on vyos")
  else if optListTruthy diff_ignore_lines then
    .error (pyStrRepr "diff_ignore_lines" ++ " in diff is not supported on vyos")
  else if optListTruthy path then
    .error (pyStrRepr "path" ++ " in diff is not supported on vyos")
  else
    match candidate with
    | none => .error "candidate configuration is required to generate diff"
    | some c =>
      let candidateCommands := vyosCandidateCommands c
      if matchP = "none" then .ok candidateCommands
      else vyosUpdatesAux ((pySplitlines running).map stripQuotes) candidateCommands [] []

/-! ## Transaction drivers (`edit_config`)

The command channel is a record with the response function of
`send_command`; only the `commit` command may fail (raising
`AnsibleConnectionFailure`), matching the failure the spec's transaction
state machine compensates for.  The returned pair is the ordered trace of
commands sent through the channel and the result (`diff`/`response`
payload or the raised error message). -/

/-- A Python value passed for a parameter documented as boolean: `True`,
`False`, or any other object (carrying its text representation). -/
inductive PyVal where
  | pyTrue
  | pyFalse
  | other (repr : String)
deriving DecidableEq, Repr

/-- The command channel of a vyos session. -/
structure VyosChannel where
  respond : String → String
  commitFails : Bool
  commitMsg : String

/-- The command text sent by vyos `Cliconf.commit`. -/
def vyosCommitCommand (comment : Option String) : String :=
  if optStrTruthy comment then
    "commit comment \"" ++ comment.getD "" ++ "\""
  else
    "commit"

/-- `Cliconf.edit_config` of the vyos plugin (lines 64-108).  Returns the
trace of commands sent and either the raised error or the
`(diff, response)` payload. -/
def vyosEditConfig (ch : VyosChannel) (candidate : List String)
    (commit replaceArg : PyVal) (comment : Option String) :
    List String × Except String (Option String × List String) :=
  if candidate = [] then
    ([], .error "must provide a candidate config to load")
  else
    match commit with
    | .other r => ([], .error (pyStrRepr "commit" ++ " must be a bool, got " ++ r))
    | commitB =>
      match replaceArg with
      | .other r => ([], .error (pyStrRepr "replace" ++ " must be a bool, got " ++ r))
      | replaceB =>
        if replaceB = .pyTrue ∧ ¬ vyosDeviceOperations.supports_replace then
          ([], .error "configuration replace is not supported on vyos")
        else
          let staged := "configure" :: candidate
          let results := staged.map ch.respond
          let out := ch.respond "compare"
          let diffConfig : Option String :=
            if pyStartsWith out "No changes" then none else some out
          let response := (results.drop 1).dropLast
          if optStrTruthy diffConfig then
            if commitB = .pyTrue then
              if ch.commitFails then
                (staged ++ ["compare", vyosCommitCommand comment, "exit discard"],
                 .error ("commit failed: " ++ ch.commitMsg))
              else
                (staged ++ ["compare", vyosCommitCommand comment, "exit"],
                 .ok (diffConfig, response))
            else
              (staged ++ ["compare", "exit discard"], .ok (diffConfig, response))
          else
            (staged ++ ["compare", "exit"], .ok (diffConfig, response))

/-- The command channel of an ios session. -/
structure IosChannel where
  respond : String → String

/-- `Cliconf.edit_config` of the ios plugin (lines 126-155).  Staging
skips the terminator `end` and comment lines whose first character is the
bang marker (an empty command, which raises `IndexError` in the source,
is treated here as not starting with the marker).  Returns the trace of
commands sent and either the raised error or the `response` payload. -/
def iosEditConfig (ch : IosChannel) (candidate : List String)
    (commit replaceArg : PyVal) :
    List String × Except String (List String) :=
  if candidate = [] then
    ([], .error "must provide a candidate config to load")
  else
    match commit with
    | .other r => ([], .error (pyStrRepr "commit" ++ " must be a bool, got " ++ r))
    | commitB =>
      match replaceArg with
      | .other r => ([], .error (pyStrRepr "replace" ++ " must be a bool, got " ++ r))
      | replaceB =>
        if replaceB = .pyTrue ∧ ¬ iosDeviceOperations.supports_replace then
          ([], .error "configuration replace is not supported on ios")
        else
          let staged :=
            if commitB = .pyTrue then
              (("configure terminal" :: candidate).filter
                (fun cmd => cmd ≠ "end" ∧ ¬ pyStartsWith cmd "!")) ++ ["end"]
            else []
          let results := staged.map ch.respond
          (staged, .ok ((results.drop 1).dropLast))

/-! ## Banner extraction and diffing (ios) -/

/-- Python `\w` on the ASCII inputs used here. -/
def isWordChar (c : Char) : Bool := c.isAlphanum || c = '_'

/-- `re.findall(caret banner space group-word, config, re.M)`: the banner
names introduced at the start of a line. -/
def findBannerNames (config : String) : List String :=
  (pySplitlines config).filterMap (fun l =>
    if pyStartsWith l "banner " then
      let w := (l.toList.drop 7).takeWhile isWordChar
      if w = [] then none else some w.asString
    else none)

/-- The lazy group `(.+?)` followed by the lookahead for the caret-C
sentinel: the shortest non-empty chunk whose successor position starts
the sentinel. -/
def lazyBodyTo : List Char → Option (List Char)
  | [] => none
  | c :: rest =>
    if ['^', 'C'].isPrefixOf rest then some [c]
    else (lazyBodyTo rest).map (fun b => c :: b)

/-- `re.search` of the banner-body pattern: scan for the leftmost
position where the opener prefix matches and a non-empty lazy body
followed by the sentinel exists. -/
def findBodyFrom (p : List Char) : List Char → Option (List Char)
  | [] => none
  | c :: rest =>
    if p.isPrefixOf (c :: rest) then
      match lazyBodyTo ((c :: rest).drop p.length) with
      | some b => some b
      | none => findBodyFrom p rest
    else findBodyFrom p rest

/-- The captured body of `banner <name>` in `config`, if any. -/
def searchBannerBody (name : String) (config : String) : Option String :=
  (findBodyFrom ("banner " ++ name ++ " ^C").toList config.toList).map List.asString

/-- Python dict insertion: overwrite in place or append. -/
def dictInsert (k v : String) : List (String × String) → List (String × String)
  | [] => [(k, v)]
  | (k2, v2) :: rest =>
    if k2 = k then (k, v) :: rest else (k2, v2) :: dictInsert k v rest

/-- Python `dict.get`. -/
def dictGet (k : String) : List (String × String) → Option String
  | [] => none
  | (k2, v) :: rest => if k2 = k then some v else dictGet k rest

/-- Match the emptied banner block pattern
(`banner`, space, word chars, space, doubled sentinel) at the head of the
character list, returning the remainder after the match. -/
def matchEmptyBanner (s : List Char) : Option (List Char) :=
  if "banner ".toList.isPrefixOf s then
    let rest := s.drop 7
    let w := rest.takeWhile isWordChar
    if w ≠ [] ∧ " ^C^C".toList.isPrefixOf (rest.drop w.length) then
      some ((rest.drop w.length).drop 5)
    else none
  else none

/-- `re.sub` of the emptied banner block with the removal placeholder;
`fuel` bounds recursion depth (always called with enough fuel). -/
def subBannerAux : Nat → List Char → List Char
  | 0, s => s
  | _ + 1, [] => []
  | fuel + 1, c :: rest =>
    match matchEmptyBanner (c :: rest) with
    | some rem => "!! banner removed".toList ++ subBannerAux fuel rem
    | none => c :: subBannerAux fuel rest

/-- Replace every emptied banner block with the removal placeholder. -/
def subBannerPlaceholder (config : String) : String :=
  (subBannerAux (config.toList.length + 1) config.toList).asString

/-- `Cliconf._extract_banners` of the ios plugin (lines 244-261): collect
the stripped body of each introduced banner, then erase each raw body
from the text, then replace the emptied blocks with the placeholder. -/
def extractBanners (config : String) : String × List (String × String) :=
  let names := findBannerNames config
  let banners := names.foldl (fun m name =>
    match searchBannerBody name config with
    | some body => dictInsert ("banner " ++ name) (pyStrip body) m
    | none => m) []
  let config2 := names.foldl (fun cfg name =>
    match searchBannerBody name cfg with
    | some body => pyReplace cfg body ""
    | none => cfg) config
  (subBannerPlaceholder config2, banners)

/-- `Cliconf._diff_banners` of the ios plugin (lines 263-268): the
entries of `want` whose value differs from the `have` entry for the same
key (a missing key counts as different). -/
def diffBanners (want hav : List (String × String)) : List (String × String) :=
  want.foldl (fun cand kv =>
    if dictGet kv.1 hav = some kv.2 then cand else dictInsert kv.1 kv.2 cand) []

/-! ## ios `get_diff` -/

/-- The diff payload of ios `get_diff`: `config_diff` is the dumped
command text when there are diff objects (`none` standing for the empty
placeholder otherwise), `banner_diff` the changed banners. -/
structure IosDiffResult where
  config_diff : Option String
  banner_diff : List (String × String)
deriving DecidableEq, Repr

/-- Modelled from the spec: Diff Engine, `dumps(objs, commands)` of
module_utils (not under src/): the ordered reconciled lines joined into
command text. -/
def dumpsCommands (objs : List String) : String :=
  String.intercalate "\n" objs

/-- Modelled from the spec: Diff Engine hierarchical mode (section 4.3),
`NetworkConfig.difference` of module_utils (not under src/), simplified
to the parsed item lines: ignored lines are dropped from the running
side, `path` restricts the running side to the given ancestors,
`exact` re-emits everything unless the sequences agree, `strict`
compares positionally, and `line` keeps candidate lines absent from the
running lines. -/
def iosDifference (cand run : List String) (matchP : String)
    (diff_ignore_lines path : Option (List String)) : List String :=
  let run2 := match diff_ignore_lines with
    | some pats => run.filter (fun l => l ∉ pats)
    | none => run
  let run3 := match path with
    | some ps => run2.filter (fun l => ps.any (fun p => pyStartsWith l p))
    | none => run2
  if matchP = "exact" then (if cand = run3 then [] else cand)
  else if matchP = "strict" then
    (cand.enum.filter (fun p => run3.getD p.1 "" ≠ p.2)).map Prod.snd
  else cand.filter (fun l => l ∉ run3)

/-- `Cliconf.get_diff` of the ios plugin (lines 55-124): validate,
extract banners from the candidate, parse it, reconcile against the
running configuration unless it is absent or `match` is `none`, and diff
the banner maps. -/
def iosGetDiff (candidate running : Option String) (matchP : String)
    (diff_ignore_lines path : Option (List String)) (replaceP : String) :
    Except String IosDiffResult :=
  if candidate = none ∧ ¬ iosDeviceOperations.supports_onbox_diff then
    .error "candidate configuration is required to generate diff"
  else if ¬ iosDiffMatchValues.contains matchP then
    .error (pyStrRepr "match" ++ " value " ++ matchP ++ " in invalid, valid values are "
      ++ pyReprList iosDiffMatchValues)
  else if ¬ iosDiffReplaceValues.contains replaceP then
    .error (pyStrRepr "replace" ++ " value " ++ replaceP ++ " in invalid, valid values are "
      ++ pyReprList iosDiffReplaceValues)
  else
    match candidate with
    | none => .error "candidate configuration is required to generate diff"
    | some cand =>
      let want := extractBanners cand
      let candidateItems := networkConfigItems want.1
      let branch :=
        if optStrTruthy running ∧ matchP ≠ "none" then
          let haveSrc := extractBanners (running.getD "")
          (iosDifference candidateItems (networkConfigItems haveSrc.1) matchP
            diff_ignore_lines path, haveSrc.2)
        else
          (candidateItems, ([] : List (String × String)))
      let banners := diffBanners want.2 branch.2
      .ok { config_diff :=
              if branch.1 = [] then none else some (dumpsCommands branch.1)
            banner_diff := banners }

/-! ## Claims about the transaction driver -/

/-- (C1) In vyos `edit_config` with `commit=true`, when the on-device
comparison reports a pending change and the commit command fails, the
driver issues exactly one discard (`exit discard`) after the failing
commit — no second commit attempt — and surfaces the commit failure as
the final error. -/
theorem vyos_commit_failure_compensation
    (ch : VyosChannel) (candidate : List String) (comment : Option String)
    (hc : candidate ≠ [])
    (hfail : ch.commitFails = true)
    (hpending : pyStartsWith (ch.respond "compare") "No changes" = false)
    (hne : ch.respond "compare" ≠ "") :
    vyosEditConfig ch candidate .pyTrue .pyFalse comment =
      ("configure" :: candidate ++ ["compare", vyosCommitCommand comment, "exit discard"],
       .error ("commit failed: " ++ ch.commitMsg)) := by
  simp [vyosEditConfig, if_neg hc, hpending, hfail, optStrTruthy, hne]

theorem vyos_commit_failure_compensation_witness :
    vyosEditConfig { respond := fun _ => "diff output", commitFails := true, commitMsg := "boom" }
      ["set x"] .pyTrue .pyFalse none =
      (["configure", "set x", "compare", "commit", "exit discard"],
       .error "commit failed: boom") :=
  vyos_commit_failure_compensation _ ["set x"] none (by decide) rfl (by decide) (by decide)

/-- (C5) In vyos `edit_config`, when the on-device comparison output
starts with `No changes`, neither a commit nor a discard is issued:
after staging and comparing the driver only exits configuration mode,
and the returned diff is null — for either boolean value of `commit`. -/
theorem vyos_no_changes_skips_commit
    (ch : VyosChannel) (candidate : List String) (commit : PyVal) (comment : Option String)
    (hc : candidate ≠ [])
    (hb : commit = .pyTrue ∨ commit = .pyFalse)
    (hnc : pyStartsWith (ch.respond "compare") "No changes" = true) :
    vyosEditConfig ch candidate commit .pyFalse comment =
      ("configure" :: candidate ++ ["compare", "exit"],
       .ok (none, ((("configure" :: candidate).map ch.respond).drop 1).dropLast)) := by
  rcases hb with h | h <;> subst h <;>
    simp [vyosEditConfig, if_neg hc, hnc, optStrTruthy]

theorem vyos_no_changes_skips_commit_witness :
    vyosEditConfig { respond := fun c => "No changes" ++ c, commitFails := false, commitMsg := "" }
      ["set x", "set y"] .pyTrue .pyFalse none =
      (["configure", "set x", "set y", "compare", "exit"],
       .ok (none, ["No changesset x"])) := by
  have h := vyos_no_changes_skips_commit
    { respond := fun c => "No changes" ++ c, commitFails := false, commitMsg := "" }
    ["set x", "set y"] .pyTrue none (by decide) (Or.inl rfl) (by decide)
  exact h.trans (by rfl)

/-- (C4, failing input) vyos `edit_config` slices its results list with
`[1:-1]` although that list carries no trailing mode-exit entry, so the
returned `response` drops the channel result of the last staged
candidate command: with candidate `[set a, set b]` only the result of
`set a` is reported. -/
theorem vyos_response_drops_last_result :
    vyosEditConfig { respond := fun c => "R:" ++ c, commitFails := false, commitMsg := "" }
      ["set a", "set b"] .pyTrue .pyFalse none =
      (["configure", "set a", "set b", "compare", "commit", "exit"],
       .ok (some "R:compare", ["R:set a"])) := by
  rfl
/-! ## Claims about `get_diff` dispatch -/

/-- (C6) With `match=none`, `get_diff` returns the full candidate
command list as the config diff for every running configuration, with no
comparison against it: on vyos the normalized candidate command list is
returned verbatim; on ios every parsed (banner-stripped) candidate item
is dumped, and only the banner map is diffed against an empty map. -/
theorem diff_match_none_full_candidate :
    (∀ (c running : String),
      vyosGetDiff (some c) running "none" none none none = .ok (vyosCandidateCommands c)) ∧
    (∀ (c : String) (running : Option String) (dil path : Option (List String)),
      iosGetDiff (some c) running "none" dil path "line" =
        .ok { config_diff :=
                if networkConfigItems (extractBanners c).1 = [] then none
                else some (dumpsCommands (networkConfigItems (extractBanners c).1)),
              banner_diff := diffBanners (extractBanners c).2 [] }) := by
  constructor
  · intro c running
    simp [vyosGetDiff, vyosDeviceOperations, vyosDiffMatchValues, optStrTruthy, optListTruthy]
  · intro c running dil path
    simp [iosGetDiff, iosDeviceOperations, iosDiffMatchValues, iosDiffReplaceValues]
/-! ## Claims about banner handling -/

lemma dictGet_eq_none_iff (k : String) :
    ∀ l : List (String × String), dictGet k l = none ↔ k ∉ l.map Prod.fst
  | [] => by simp [dictGet]
  | (k2, v) :: rest => by
    by_cases h : k2 = k
    · subst h
      simp [dictGet]
    · simp [dictGet, h, Ne.symm h, dictGet_eq_none_iff k rest]

lemma dictInsert_of_fresh (k v : String) :
    ∀ l : List (String × String), k ∉ l.map Prod.fst → dictInsert k v l = l ++ [(k, v)]
  | [], _ => rfl
  | (k2, v2) :: rest, h => by
    simp only [List.map_cons, List.mem_cons] at h
    push_neg at h
    simp [dictInsert, Ne.symm h.1, dictInsert_of_fresh k v rest h.2]

lemma diffBanners_foldl (hav : List (String × String)) :
    ∀ (want cand : List (String × String)),
      (want.map Prod.fst).Nodup →
      (∀ k ∈ want.map Prod.fst, k ∉ cand.map Prod.fst) →
      want.foldl (fun cand kv =>
          if dictGet kv.1 hav = some kv.2 then cand else dictInsert kv.1 kv.2 cand) cand
        = cand ++ want.filter (fun kv => dictGet kv.1 hav ≠ some kv.2)
  | [], cand, _, _ => by simp
  | kv :: t, cand, hnd, hfresh => by
    simp only [List.map_cons, List.nodup_cons] at hnd
    by_cases h : dictGet kv.1 hav = some kv.2
    · have ht := diffBanners_foldl hav t cand hnd.2
        (fun k hk => hfresh k (by simp [hk]))
      simp [List.foldl_cons, h, ht]
    · have hins : dictInsert kv.1 kv.2 cand = cand ++ [kv] := by
        have := dictInsert_of_fresh kv.1 kv.2 cand (hfresh kv.1 (by simp))
        simpa using this
      have ht := diffBanners_foldl hav t (cand ++ [kv]) hnd.2 (by
        intro k hk
        have h1 : k ∉ cand.map Prod.fst := hfresh k (by simp [hk])
        have h2 : k ≠ kv.1 := fun hcontra => hnd.1 (hcontra ▸ hk)
        simp [List.map_append, h1, h2])
      simp [List.foldl_cons, h, hins, ht]

/-- (C8) `_diff_banners` returns exactly the entries of `want` whose
value differs from the `have` value for that key, a key missing from
`have` counting as changed; keys absent from `want` never appear. -/
theorem diff_banners_exact (want hav : List (String × String))
    (hnd : (want.map Prod.fst).Nodup) :
    (∀ kv : String × String,
        kv ∈ diffBanners want hav ↔ kv ∈ want ∧ dictGet kv.1 hav ≠ some kv.2) ∧
    (∀ k, k ∉ want.map Prod.fst → dictGet k (diffBanners want hav) = none) := by
  have hfold := diffBanners_foldl hav want [] hnd (by simp)
  have heq : diffBanners want hav = want.filter (fun kv => dictGet kv.1 hav ≠ some kv.2) := by
    simpa [diffBanners] using hfold
  constructor
  · intro kv
    simp [heq, List.mem_filter]
  · intro k hk
    rw [heq, dictGet_eq_none_iff]
    intro hmem
    apply hk
    rcases List.mem_map.mp hmem with ⟨kv, hkv, hfst⟩
    exact List.mem_map.mpr ⟨kv, List.mem_of_mem_filter hkv, hfst⟩

theorem diff_banners_exact_witness :
    ("banner login", "x") ∈ diffBanners
      [("banner motd", "hi"), ("banner login", "x")] [("banner motd", "hi")] :=
  ((diff_banners_exact [("banner motd", "hi"), ("banner login", "x")]
      [("banner motd", "hi")] (by decide)).1 ("banner login", "x")).mpr (by decide)
/-- (C9, amended) Banner extraction on input `banner motd ^C hello ^C`
yields the banner map mapping `banner motd` to `hello`, with the banner
block replaced by the removal placeholder in the stripped text; a banner
with an empty body (delimiter immediately repeated) yields NO banner-map
entry — the lazy body group requires at least one character — while the
stripped text still records the placeholder. -/
theorem banner_extraction_amended :
    extractBanners "banner motd ^C hello ^C" =
      ("!! banner removed", [("banner motd", "hello")]) ∧
    extractBanners "banner motd ^C^C" = ("!! banner removed", []) := by
  constructor <;> decide

/-- (C9, counterexample) The claim that an empty-body banner yields an
empty-string value is false: on `banner motd ^C^C` the extraction map
has no entry at all for `banner motd`. -/
theorem banner_empty_body_counterexample :
    dictGet "banner motd" (extractBanners "banner motd ^C^C").2 ≠ some "" ∧
    dictGet "banner motd" (extractBanners "banner motd ^C^C").2 = none := by
  constructor <;> decide
/-! ## Claims about the candidate prefix filter -/

/-- Neither of two accepted lines is a text-prefix of the other. -/
def noMutualPrefixWith (a b : String) : Prop :=
  pyStartsWith a b = false ∧ pyStartsWith b a = false

lemma pyStartsWith_refl (s : String) : pyStartsWith s s = true := by
  simp [pyStartsWith]

lemma pyStartsWith_total {s a b : String}
    (ha : pyStartsWith s a = true) (hb : pyStartsWith s b = true) :
    pyStartsWith a b = true ∨ pyStartsWith b a = true := by
  simp only [pyStartsWith, List.isPrefixOf_iff_prefix] at *
  exact List.prefix_or_prefix_of_prefix hb ha

lemma removeFirstPrefixOf_sublist (item : String) :
    ∀ l : List String, List.Sublist (removeFirstPrefixOf item l) l
  | [] => List.Sublist.refl []
  | entry :: rest => by
    unfold removeFirstPrefixOf
    by_cases h : pyStartsWith item entry
    · simp [h, List.sublist_cons_self]
    · simp only [h, if_false]
      exact (removeFirstPrefixOf_sublist item rest).cons₂ entry

lemma removeFirstPrefixOf_no_prefix (item : String) :
    ∀ l : List String, l.Pairwise noMutualPrefixWith →
      ∀ e ∈ removeFirstPrefixOf item l, pyStartsWith item e = false
  | [], _, e, he => by simp [removeFirstPrefixOf] at he
  | entry :: rest, hp, e, he => by
    rw [List.pairwise_cons] at hp
    unfold removeFirstPrefixOf at he
    by_cases h : pyStartsWith item entry
    · simp [h] at he
      by_contra hcontra
      rw [Bool.not_eq_false] at hcontra
      rcases pyStartsWith_total h hcontra with h2 | h2
      · exact absurd h2 (by simp [(hp.1 e he).1])
      · exact absurd h2 (by simp [(hp.1 e he).2])
    · simp [h, List.mem_cons] at he
      rcases he with he | he
      · subst he
        simpa using h
      · exact removeFirstPrefixOf_no_prefix item rest hp.2 e he

lemma vyosFilterGo_pairwise :
    ∀ (lines commands : List String),
      commands.Pairwise noMutualPrefixWith →
      (∀ l ∈ lines, ∀ c ∈ commands, ¬ (pyStartsWith c l = true ∧ l ≠ c)) →
      lines.Pairwise (fun a b => ¬ (pyStartsWith a b = true ∧ b ≠ a)) →
      (vyosFilterGo commands lines).Pairwise noMutualPrefixWith
  | [], commands, hcp, _, _ => hcp
  | item :: rest, commands, hcp, hfut, hlp => by
    rw [List.pairwise_cons] at hlp
    have hremoved := removeFirstPrefixOf_no_prefix item commands hcp
    have hsub := removeFirstPrefixOf_sublist item commands
    have hcp2 : (removeFirstPrefixOf item commands ++ [item]).Pairwise noMutualPrefixWith := by
      rw [List.pairwise_append]
      refine ⟨hcp.sublist hsub, List.pairwise_singleton _ _, ?_⟩
      intro e he b hb
      rw [List.mem_singleton] at hb
      rw [hb]
      have h1 : pyStartsWith item e = false := hremoved e he
      have h2 : pyStartsWith e item = false := by
        by_contra hcontra
        rw [Bool.not_eq_false] at hcontra
        by_cases heq : item = e
        · subst heq
          simp [pyStartsWith_refl] at h1
        · exact hfut item (by simp) e (hsub.subset he) ⟨hcontra, heq⟩
      exact ⟨h2, h1⟩
    refine vyosFilterGo_pairwise rest _ hcp2 ?_ hlp.2
    intro l hl c hc
    rw [List.mem_append] at hc
    rcases hc with hc | hc
    · exact hfut l (by simp [hl]) c (hsub.subset hc)
    · rw [List.mem_singleton] at hc
      rw [hc]
      exact hlp.1 l hl

/-- (C2, counterexample) The claim that every previously accepted prefix
is removed — and hence that the final list never contains a line that is
a strict prefix of a later-accepted line — is false: the loop deletes at
most one accepted entry (the scan breaks after the first hit), so on
candidate lines `[set ab, set a, set abc]` the filter keeps `set a`,
which is a strict prefix of the later-accepted `set abc`. -/
theorem vyos_prefix_filter_counterexample :
    vyosFilterCommands ["set ab", "set a", "set abc"] = ["set a", "set abc"] ∧
    pyStartsWith "set abc" "set a" = true ∧ "set a" ≠ "set abc" := by
  refine ⟨by decide, by decide, by decide⟩

/-- (C2, amended) The filter removes, before appending each candidate
line, the FIRST previously accepted line that is a text-prefix of it (at
most one); the example `[set a b, set a b c, set x]` still normalizes to
exactly `[set a b c, set x]`, and whenever no candidate line is a strict
text-prefix of an earlier candidate line, the final list contains no
line that is a strict prefix of a later-accepted line. -/
theorem vyos_prefix_filter_amended :
    vyosFilterCommands ["set a b", "set a b c", "set x"] = ["set a b c", "set x"] ∧
    ∀ lines : List String,
      lines.Pairwise (fun a b => ¬ (pyStartsWith a b = true ∧ b ≠ a)) →
      (vyosFilterCommands lines).Pairwise
        (fun a b => ¬ (pyStartsWith b a = true ∧ a ≠ b)) := by
  refine ⟨by decide, ?_⟩
  intro lines h
  have hp := vyosFilterGo_pairwise lines [] List.Pairwise.nil (by simp) h
  exact hp.imp (fun hab hcontra => by simp [hab.2] at hcontra)

theorem vyos_prefix_filter_amended_witness :
    (vyosFilterCommands ["set a b", "set a b c"]).Pairwise
      (fun a b => ¬ (pyStartsWith b a = true ∧ a ≠ b)) :=
  vyos_prefix_filter_amended.2 ["set a b", "set a b c"] (by decide)
/-! ## Claims about flat set/delete reconciliation -/

lemma not_set_and_delete (s : String) :
    ¬ (pyStartsWith s "set" = true ∧ pyStartsWith s "delete" = true) := by
  rintro ⟨h1, h2⟩
  simp only [pyStartsWith] at h1 h2
  rw [show "set".toList = ['s', 'e', 't'] from rfl] at h1
  rw [show "delete".toList = ['d', 'e', 'l', 'e', 't', 'e'] from rfl] at h2
  cases hs : s.toList with
  | nil =>
    rw [hs] at h1
    exact absurd h1 (by simp [List.isPrefixOf])
  | cons c cs =>
    rw [hs] at h1 h2
    simp only [List.isPrefixOf_cons₂, Bool.and_eq_true, beq_iff_eq] at h1 h2
    rw [← h1.1] at h2
    exact absurd h2.1 (by decide)

lemma vyosUpdatesAux_count_nil_running (line : String) :
    ∀ (cand updates0 visited updates : List String),
      vyosUpdatesAux [] cand updates0 visited = .ok updates →
      pyStartsWith (stripQuotes line) "delete" = true →
      updates.count line = updates0.count line + cand.count line
  | [], u0, v, updates, hok, _ => by
    simp only [vyosUpdatesAux, Except.ok.injEq] at hok
    subst hok
    simp
  | c :: rest, u0, v, updates, hok, hdel => by
    by_cases hset : pyStartsWith (stripQuotes c) "set" = true
    · have hnd : ¬ pyStartsWith (stripQuotes c) "delete" = true :=
        fun hd => not_set_and_delete (stripQuotes c) ⟨hset, hd⟩
      have hne : c ≠ line := by
        rintro rfl
        exact hnd hdel
      simp only [vyosUpdatesAux, hset, hnd, List.not_mem_nil, not_false_iff,
        and_true, true_and, if_true, if_false, Bool.true_eq_false, false_and,
        and_false, not_true, reduceIte] at hok
      have ih := vyosUpdatesAux_count_nil_running line rest (u0 ++ [c]) v updates hok hdel
      simp only [ih, List.count_append, List.count_cons, List.count_nil]
      have : (c == line) = false := by simpa using hne
      simp [this]
    · by_cases hdc : pyStartsWith (stripQuotes c) "delete" = true
      · simp only [vyosUpdatesAux, hset, hdc, List.not_mem_nil, not_false_iff,
          and_true, true_and, if_true, if_false, Bool.false_eq_true, false_and,
          and_false, not_true, reduceIte] at hok
        have ih := vyosUpdatesAux_count_nil_running line rest (u0 ++ [c]) v updates hok hdel
        simp only [ih, List.count_append, List.count_cons, List.count_nil]
        omega
      · simp only [vyosUpdatesAux, hset, hdc] at hok
        simp at hok
lemma vyosUpdatesAux_count_delete (rc : List String) (hrc : rc ≠ []) (line : String) :
    ∀ (cand updates0 visited updates : List String),
      vyosUpdatesAux rc cand updates0 visited = .ok updates →
      pyStartsWith (stripQuotes line) "delete" = true →
      updates.count line = updates0.count line +
        (if line ∈ visited then 0
         else if line ∈ cand ∧
             (∃ entry ∈ rc, pyStartsWith entry
               (pyReplace (stripQuotes line) "delete" "set") = true) then 1 else 0)
  | [], u0, v, updates, hok, hdel => by
    simp only [vyosUpdatesAux, Except.ok.injEq] at hok
    subst hok
    simp
  | c :: rest, u0, v, updates, hok, hdel => by
    simp only [vyosUpdatesAux] at hok
    split at hok
    · exact absurd hok (by simp)
    · split at hok
      case isTrue hP2 =>
        -- a set line absent from running: appended, visited unchanged
        have hnd : ¬ pyStartsWith (stripQuotes c) "delete" = true :=
          fun hd => not_set_and_delete (stripQuotes c) ⟨hP2.1, hd⟩
        have hne : ¬ line = c := fun h => hnd (h ▸ hdel)
        have ih := vyosUpdatesAux_count_delete rc hrc line rest (u0 ++ [c]) v updates hok hdel
        rw [ih]
        have hc : (c == line) = false := beq_eq_false_iff_ne.mpr fun h => hne h.symm
        simp [List.count_append, List.count_cons, hc, List.mem_cons, hne]
      case isFalse hP2 =>
        split at hok
        case isFalse hP3 =>
          -- a set line already present in running: nothing happens
          have hne : ¬ line = c := fun h => hP3 (h ▸ hdel)
          have ih := vyosUpdatesAux_count_delete rc hrc line rest u0 v updates hok hdel
          rw [ih]
          simp [List.mem_cons, hne]
        case isTrue hP3 =>
          split at hok
          case isTrue hQ =>
            by_cases hcl : line = c
            · subst hcl
              have ih := vyosUpdatesAux_count_delete rc hrc line rest
                (u0 ++ [line]) (line :: v) updates hok hdel
              rw [ih]
              simp [List.count_append, List.count_cons, List.mem_cons, hQ.1, hQ.2]
            · have hc : (c == line) = false := beq_eq_false_iff_ne.mpr fun h => hcl h.symm
              have ih := vyosUpdatesAux_count_delete rc hrc line rest
                (u0 ++ [c]) (c :: v) updates hok hdel
              rw [ih]
              simp [List.count_append, List.count_cons, hc, List.mem_cons, hcl]
          case isFalse hQ =>
            have ih := vyosUpdatesAux_count_delete rc hrc line rest u0 v updates hok hdel
            rw [ih]
            by_cases hcl : line = c
            · subst hcl
              by_cases hv : line ∈ v
              · simp [hv]
              · have hm : ¬ (∃ entry ∈ rc, pyStartsWith entry
                    (pyReplace (stripQuotes line) "delete" "set") = true) :=
                  fun m => hQ ⟨m, hv⟩
                simp [hv, hm]
            · simp [List.mem_cons, hcl]
/-- (C3) In flat reconciliation, a candidate delete line is emitted once
per occurrence when the running command list is empty; against a
non-empty running list it is emitted exactly once — however many running
lines share the prefix — when rewriting `delete` to `set` in its
quote-stripped text yields a prefix of some running command, and never
otherwise, the suppression being keyed on the original candidate line
through the visited set. -/
theorem vyos_delete_emission (cand runL updates : List String) (line : String)
    (hdel : pyStartsWith (stripQuotes line) "delete" = true)
    (hmem : line ∈ cand)
    (hok : vyosUpdates cand runL = .ok updates) :
    (runL = [] → updates.count line = cand.count line) ∧
    (runL ≠ [] →
      updates.count line =
        if ∃ entry ∈ runL.map stripQuotes,
            pyStartsWith entry (pyReplace (stripQuotes line) "delete" "set") = true
        then 1 else 0) := by
  constructor
  · intro h
    subst h
    have hcount := vyosUpdatesAux_count_nil_running line cand [] [] updates
      (by simpa [vyosUpdates] using hok) hdel
    simpa using hcount
  · intro h
    have hrc : runL.map stripQuotes ≠ [] := by simpa using h
    have hcount := vyosUpdatesAux_count_delete (runL.map stripQuotes) hrc line cand [] []
      updates (by simpa [vyosUpdates] using hok) hdel
    simpa [hmem] using hcount

theorem vyos_delete_emission_witness :
    (["delete a"] : List String).count "delete a" = 1 := by
  have h := (vyos_delete_emission ["delete a"] ["set a b"] ["delete a"] "delete a"
    (by decide) (by decide) (by rfl)).2 (by decide)
  exact h.trans (by decide)
lemma vyosUpdatesAux_mem (rc : List String) :
    ∀ (cand u v updates : List String),
      vyosUpdatesAux rc cand u v = .ok updates →
      ∀ x ∈ updates, x ∈ u ∨ x ∈ cand
  | [], u, v, updates, hok, x, hx => by
    simp only [vyosUpdatesAux, Except.ok.injEq] at hok
    subst hok
    exact Or.inl hx
  | c :: rest, u, v, updates, hok, x, hx => by
    simp only [vyosUpdatesAux] at hok
    split at hok
    · exact absurd hok (by simp)
    · split at hok
      case isTrue h =>
        rcases vyosUpdatesAux_mem rc rest (u ++ [c]) v updates hok x hx with hu | hc
        · rcases List.mem_append.mp hu with hu | hu
          · exact Or.inl hu
          · rw [List.mem_singleton.mp hu]
            exact Or.inr (List.mem_cons_self c rest)
        · exact Or.inr (List.mem_cons_of_mem c hc)
      case isFalse h =>
        split at hok
        case isTrue h3 =>
          split at hok
          case isTrue h4 =>
            rcases vyosUpdatesAux_mem rc rest (u ++ [c]) v updates hok x hx with hu | hc
            · rcases List.mem_append.mp hu with hu | hu
              · exact Or.inl hu
              · rw [List.mem_singleton.mp hu]
                exact Or.inr (List.mem_cons_self c rest)
            · exact Or.inr (List.mem_cons_of_mem c hc)
          case isFalse h4 =>
            split at hok
            case isTrue h5 =>
              rcases vyosUpdatesAux_mem rc rest (u ++ [c]) (c :: v) updates hok x hx with hu | hc
              · rcases List.mem_append.mp hu with hu | hu
                · exact Or.inl hu
                · rw [List.mem_singleton.mp hu]
                  exact Or.inr (List.mem_cons_self c rest)
              · exact Or.inr (List.mem_cons_of_mem c hc)
            case isFalse h5 =>
              rcases vyosUpdatesAux_mem rc rest u v updates hok x hx with hu | hc
              · exact Or.inl hu
              · exact Or.inr (List.mem_cons_of_mem c hc)
        case isFalse h3 =>
          rcases vyosUpdatesAux_mem rc rest u v updates hok x hx with hu | hc
          · exact Or.inl hu
          · exact Or.inr (List.mem_cons_of_mem c hc)

lemma mem_visited_iff {v1 v2 : List String} {l1 l2 : String}
    (hv : v1.map stripQuotes = v2.map stripQuotes)
    (hs : stripQuotes l1 = stripQuotes l2)
    (hinj1 : ∀ w ∈ v1, stripQuotes l1 = stripQuotes w → l1 = w)
    (hinj2 : ∀ w ∈ v2, stripQuotes l2 = stripQuotes w → l2 = w) :
    l1 ∈ v1 ↔ l2 ∈ v2 := by
  constructor
  · intro h
    have hm : stripQuotes l1 ∈ v1.map stripQuotes := List.mem_map_of_mem _ h
    rw [hv, hs] at hm
    rcases List.mem_map.mp hm with ⟨w, hw, hws⟩
    rw [hinj2 w hw hws.symm]
    exact hw
  · intro h
    have hm : stripQuotes l2 ∈ v2.map stripQuotes := List.mem_map_of_mem _ h
    rw [← hv, ← hs] at hm
    rcases List.mem_map.mp hm with ⟨w, hw, hws⟩
    rw [hinj1 w hw hws.symm]
    exact hw
lemma vyosUpdatesAux_strip_congr (rc : List String) :
    ∀ (c1 c2 u1 u2 v1 v2 : List String),
      c1.map stripQuotes = c2.map stripQuotes →
      u1.map stripQuotes = u2.map stripQuotes →
      v1.map stripQuotes = v2.map stripQuotes →
      (∀ l ∈ c1, ∀ w ∈ v1, stripQuotes l = stripQuotes w → l = w) →
      (∀ l ∈ c2, ∀ w ∈ v2, stripQuotes l = stripQuotes w → l = w) →
      c1.Pairwise (fun a b => stripQuotes a = stripQuotes b → a = b) →
      c2.Pairwise (fun a b => stripQuotes a = stripQuotes b → a = b) →
      Except.map (List.map stripQuotes) (vyosUpdatesAux rc c1 u1 v1) =
        Except.map (List.map stripQuotes) (vyosUpdatesAux rc c2 u2 v2)
  | [], c2, u1, u2, v1, v2, hc, hu, hv, _, _, _, _ => by
    have h2 : c2 = [] := by
      have := hc.symm
      simpa using this
    subst h2
    simp [vyosUpdatesAux, Except.map, hu]
  | l1 :: t1, c2, u1, u2, v1, v2, hc, hu, hv, hinj1, hinj2, hp1, hp2 => by
    cases c2 with
    | nil => simp at hc
    | cons l2 t2 =>
      simp only [List.map_cons, List.cons.injEq] at hc
      obtain ⟨hs, ht⟩ := hc
      rw [List.pairwise_cons] at hp1 hp2
      have hinj1t : ∀ l ∈ t1, ∀ w ∈ v1, stripQuotes l = stripQuotes w → l = w :=
        fun l hl w hw => hinj1 l (List.mem_cons_of_mem _ hl) w hw
      have hinj2t : ∀ l ∈ t2, ∀ w ∈ v2, stripQuotes l = stripQuotes w → l = w :=
        fun l hl w hw => hinj2 l (List.mem_cons_of_mem _ hl) w hw
      have hinj1x : ∀ l ∈ t1, ∀ w ∈ l1 :: v1, stripQuotes l = stripQuotes w → l = w := by
        intro l hl w hw hsw
        rcases List.mem_cons.mp hw with h | h
        · rw [h]
          exact ((hp1.1 l hl) (h ▸ hsw).symm).symm
        · exact hinj1t l hl w h hsw
      have hinj2x : ∀ l ∈ t2, ∀ w ∈ l2 :: v2, stripQuotes l = stripQuotes w → l = w := by
        intro l hl w hw hsw
        rcases List.mem_cons.mp hw with h | h
        · rw [h]
          exact ((hp2.1 l hl) (h ▸ hsw).symm).symm
        · exact hinj2t l hl w h hsw
      have huapp : (u1 ++ [l1]).map stripQuotes = (u2 ++ [l2]).map stripQuotes := by
        simp [hu, hs]
      have hvapp : (l1 :: v1).map stripQuotes = (l2 :: v2).map stripQuotes := by
        simp [hv, hs]
      simp only [vyosUpdatesAux]
      rw [← hs]
      by_cases hA : pyStartsWith (stripQuotes l1) "set" = false ∧
          pyStartsWith (stripQuotes l1) "delete" = false
      · rw [if_pos hA, if_pos hA]
      · rw [if_neg hA, if_neg hA]
        by_cases hB : pyStartsWith (stripQuotes l1) "set" = true ∧ stripQuotes l1 ∉ rc
        · rw [if_pos hB, if_pos hB]
          exact vyosUpdatesAux_strip_congr rc t1 t2 (u1 ++ [l1]) (u2 ++ [l2]) v1 v2
            ht huapp hv hinj1t hinj2t hp1.2 hp2.2
        · rw [if_neg hB, if_neg hB]
          by_cases hC : pyStartsWith (stripQuotes l1) "delete" = true
          · rw [if_pos hC, if_pos hC]
            by_cases hrc : rc = []
            · rw [if_pos hrc, if_pos hrc]
              exact vyosUpdatesAux_strip_congr rc t1 t2 (u1 ++ [l1]) (u2 ++ [l2]) v1 v2
                ht huapp hv hinj1t hinj2t hp1.2 hp2.2
            · rw [if_neg hrc, if_neg hrc]
              have hmv := mem_visited_iff hv hs
                (hinj1 l1 (List.mem_cons_self _ _)) (hinj2 l2 (List.mem_cons_self _ _))
              by_cases hM : ∃ entry ∈ rc,
                  pyStartsWith entry (pyReplace (stripQuotes l1) "delete" "set") = true
              · by_cases hv1 : l1 ∈ v1
                · rw [if_neg (fun hq => hq.2 hv1),
                    if_neg (fun hq => hq.2 (hmv.mp hv1))]
                  exact vyosUpdatesAux_strip_congr rc t1 t2 u1 u2 v1 v2
                    ht hu hv hinj1t hinj2t hp1.2 hp2.2
                · rw [if_pos ⟨hM, hv1⟩, if_pos ⟨hM, fun h2 => hv1 (hmv.mpr h2)⟩]
                  exact vyosUpdatesAux_strip_congr rc t1 t2 (u1 ++ [l1]) (u2 ++ [l2])
                    (l1 :: v1) (l2 :: v2) ht huapp hvapp hinj1x hinj2x hp1.2 hp2.2
              · rw [if_neg (fun hq => hM hq.1), if_neg (fun hq => hM hq.1)]
                exact vyosUpdatesAux_strip_congr rc t1 t2 u1 u2 v1 v2
                  ht hu hv hinj1t hinj2t hp1.2 hp2.2
          · rw [if_neg hC, if_neg hC]
            exact vyosUpdatesAux_strip_congr rc t1 t2 u1 u2 v1 v2
              ht hu hv hinj1t hinj2t hp1.2 hp2.2
/-- (C10, counterexample) Two candidates whose lines agree after
single-quote stripping can produce DIFFERENT emission decisions: the
visited set is keyed on the original line, so a second `delete a` is
suppressed while a quoted variant of it is emitted again. -/
theorem vyos_quote_stripping_counterexample :
    ["delete a", "delete a"].map stripQuotes =
      ["delete a",
       "delete " ++ singleQuote.toString ++ "a" ++ singleQuote.toString].map stripQuotes ∧
    vyosUpdates ["delete a", "delete a"] ["set a b"] = .ok ["delete a"] ∧
    vyosUpdates
      ["delete a", "delete " ++ singleQuote.toString ++ "a" ++ singleQuote.toString]
      ["set a b"] =
      .ok ["delete a",
           "delete " ++ singleQuote.toString ++ "a" ++ singleQuote.toString] := by
  refine ⟨by decide, by rfl, by rfl⟩

/-- (C10, amended) Flat reconciliation compares candidate and running
lines with all single quotes stripped from both sides but appends the
ORIGINAL candidate lines to the update list; two candidates differing
only in single quotes produce the same emission decisions PROVIDED no
two distinct lines of a candidate share the same quote-stripped text —
the visited set is keyed on the unstripped line, so quote-variant
duplicate delete lines can be emitted differently. -/
theorem vyos_quote_stripping_amended :
    (∀ (cand runL updates : List String),
        vyosUpdates cand runL = .ok updates → ∀ x ∈ updates, x ∈ cand) ∧
    (∀ (c1 c2 runL : List String),
        c1.map stripQuotes = c2.map stripQuotes →
        c1.Pairwise (fun a b => stripQuotes a = stripQuotes b → a = b) →
        c2.Pairwise (fun a b => stripQuotes a = stripQuotes b → a = b) →
        Except.map (List.map stripQuotes) (vyosUpdates c1 runL) =
          Except.map (List.map stripQuotes) (vyosUpdates c2 runL)) := by
  constructor
  · intro cand runL updates hok x hx
    rcases vyosUpdatesAux_mem (runL.map stripQuotes) cand [] [] updates hok x hx with h | h
    · simp at h
    · exact h
  · intro c1 c2 runL hmap hp1 hp2
    exact vyosUpdatesAux_strip_congr (runL.map stripQuotes) c1 c2 [] [] [] []
      hmap rfl rfl (by simp) (by simp) hp1 hp2

theorem vyos_quote_stripping_amended_witness :
    Except.map (List.map stripQuotes) (vyosUpdates ["set a"] []) =
      Except.map (List.map stripQuotes)
        (vyosUpdates ["set " ++ singleQuote.toString ++ "a" ++ singleQuote.toString] []) :=
  vyos_quote_stripping_amended.2 ["set a"]
    ["set " ++ singleQuote.toString ++ "a" ++ singleQuote.toString] []
    (by decide) (by decide) (by decide)
/-! ## Claims about validation ordering -/

/-- (C7) Every validation error — missing candidate, non-boolean commit
or replace, replace on a device without replace support, invalid match
value, and in the flat vyos diff any of replace, diff ignore lines or
path supplied — is raised with an empty command trace for the
`edit_config` drivers, and as an immediate error by the pure `get_diff`
functions, which never touch the command channel at all; device state is
therefore unchanged. -/
theorem validation_before_any_command :
    (∀ (ch : VyosChannel) (cand : List String) (commit rep : PyVal) (comment : Option String),
      (cand = [] ∨ (∃ r, commit = .other r) ∨ (∃ r, rep = .other r) ∨ rep = .pyTrue) →
      (vyosEditConfig ch cand commit rep comment).1 = [] ∧
        ∃ e, (vyosEditConfig ch cand commit rep comment).2 = .error e) ∧
    (∀ (ch : IosChannel) (cand : List String) (commit rep : PyVal),
      (cand = [] ∨ (∃ r, commit = .other r) ∨ (∃ r, rep = .other r) ∨ rep = .pyTrue) →
      (iosEditConfig ch cand commit rep).1 = [] ∧
        ∃ e, (iosEditConfig ch cand commit rep).2 = .error e) ∧
    (∀ (candidate : Option String) (running matchP : String)
        (dil path : Option (List String)) (rep : Option String),
      (candidate = none ∨ vyosDiffMatchValues.contains matchP = false ∨
        optStrTruthy rep = true ∨ optListTruthy dil = true ∨ optListTruthy path = true) →
      ∃ e, vyosGetDiff candidate running matchP dil path rep = .error e) ∧
    (∀ (candidate running : Option String) (matchP : String)
        (dil path : Option (List String)) (rep : String),
      (candidate = none ∨ iosDiffMatchValues.contains matchP = false ∨
        iosDiffReplaceValues.contains rep = false) →
      ∃ e, iosGetDiff candidate running matchP dil path rep = .error e) := by
  refine ⟨?_, ?_, ?_, ?_⟩
  · intro ch cand commit rep comment hval
    by_cases hc : cand = []
    · simp [vyosEditConfig, hc]
    · rcases hval with h | ⟨r, h⟩ | ⟨r, h⟩ | h
      · exact absurd h hc
      · subst h
        simp [vyosEditConfig, hc]
      · subst h
        cases commit with
        | other r2 => simp [vyosEditConfig, hc]
        | pyTrue => simp [vyosEditConfig, hc]
        | pyFalse => simp [vyosEditConfig, hc]
      · subst h
        cases commit with
        | other r2 => simp [vyosEditConfig, hc]
        | pyTrue => simp [vyosEditConfig, hc, vyosDeviceOperations]
        | pyFalse => simp [vyosEditConfig, hc, vyosDeviceOperations]
  · intro ch cand commit rep hval
    by_cases hc : cand = []
    · simp [iosEditConfig, hc]
    · rcases hval with h | ⟨r, h⟩ | ⟨r, h⟩ | h
      · exact absurd h hc
      · subst h
        simp [iosEditConfig, hc]
      · subst h
        cases commit with
        | other r2 => simp [iosEditConfig, hc]
        | pyTrue => simp [iosEditConfig, hc]
        | pyFalse => simp [iosEditConfig, hc]
      · subst h
        cases commit with
        | other r2 => simp [iosEditConfig, hc]
        | pyTrue => simp [iosEditConfig, hc, iosDeviceOperations]
        | pyFalse => simp [iosEditConfig, hc, iosDeviceOperations]
  · intro candidate running matchP dil path rep hval
    unfold vyosGetDiff
    split
    · exact ⟨_, rfl⟩
    · split
      · exact ⟨_, rfl⟩
      · split
        · exact ⟨_, rfl⟩
        · split
          · exact ⟨_, rfl⟩
          · split
            · exact ⟨_, rfl⟩
            · rename_i h1 h2 h3 h4 h5
              exfalso
              rcases hval with h | h | h | h | h
              · exact h1 ⟨h, by simp [vyosDeviceOperations]⟩
              · rw [h] at h2
                exact h2 (by simp)
              · rw [h] at h3
                exact h3 rfl
              · rw [h] at h4
                exact h4 rfl
              · rw [h] at h5
                exact h5 rfl
  · intro candidate running matchP dil path rep hval
    unfold iosGetDiff
    split
    · exact ⟨_, rfl⟩
    · split
      · exact ⟨_, rfl⟩
      · split
        · exact ⟨_, rfl⟩
        · rename_i h1 h2 h3
          exfalso
          rcases hval with h | h | h
          · exact h1 ⟨h, by simp [iosDeviceOperations]⟩
          · rw [h] at h2
            exact h2 (by simp)
          · rw [h] at h3
            exact h3 (by simp)

theorem validation_before_any_command_witness :
    (vyosEditConfig { respond := fun _ => "", commitFails := false, commitMsg := "" }
      [] .pyTrue .pyFalse none).1 = [] ∧
    ∃ e, (vyosEditConfig { respond := fun _ => "", commitFails := false, commitMsg := "" }
      [] .pyTrue .pyFalse none).2 = .error e :=
  validation_before_any_command.1 _ [] .pyTrue .pyFalse none (Or.inl rfl)
